import Mathlib

/-!
Verification of the stock-investment VS Code extension's quote aggregation
and view-model engine (`src/extension.ts`, newest revision).

Shallow embedding conventions:
* JavaScript numbers are modelled exactly: `JsNum` is NaN, a signed infinity,
  or an exact fraction `Frac` (integer numerator, positive natural
  denominator, not necessarily reduced).  Binary-double rounding artifacts
  are outside the model; every numeric value the program manipulates is
  derived from integer wire fields or decimal literals.
* JS `Map` objects are association lists in insertion order with unique keys
  (`mapSet` / `mapGet` mirror `Map.set` / `Map.get`).
* JS strings are Lean `String`s; `jsTrim`, `jsSplit`, `jsStartsWith` model
  `String.prototype.trim`, `split`, `startsWith` structurally over the
  character list.
* The asynchronous fetch cycle is modelled as a two-phase step: the
  synchronous prefix of `fetchAllStockData` (clear + timestamp + dispatch)
  and the response handler of `fetchBatchStocks` (process + completion
  callback).  Network/parse outcomes are an explicit `FetchOutcome`.
-/

/-- Whitespace predicate used by the JS `trim` model. -/
def isWsChar (c : Char) : Bool :=
  c = ' ' || c = '\t' || c = '\n' || c = '\r'

/-- Characters of a string with leading and trailing whitespace removed. -/
def trimChars (l : List Char) : List Char :=
  ((l.dropWhile isWsChar).reverse.dropWhile isWsChar).reverse

/-- Model of JS `String.prototype.trim`. -/
def jsTrim (s : String) : String :=
  String.mk (trimChars s.toList)

/-- Split a character list on a separator character, JS `split` grouping:
the result is always nonempty and empty groups are kept. -/
def splitCharsOn (sep : Char) : List Char → List (List Char)
  | [] => [[]]
  | c :: cs =>
    if c = sep then [] :: splitCharsOn sep cs
    else
      match splitCharsOn sep cs with
      | [] => [[c]]
      | g :: gs => (c :: g) :: gs

/-- Model of JS `String.prototype.split` with a one-character separator. -/
def jsSplit (s : String) (sep : Char) : List String :=
  (splitCharsOn sep s.toList).map String.mk

/-- List-prefix test (structural). -/
def charsPrefix : List Char → List Char → Bool
  | [], _ => true
  | _ :: _, [] => false
  | p :: ps, c :: cs => p = c && charsPrefix ps cs

/-- Model of JS `String.prototype.startsWith`. -/
def jsStartsWith (s pre : String) : Bool :=
  charsPrefix pre.toList s.toList

/-- An exact rational as an integer numerator over a positive natural
denominator.  Fractions are not kept reduced; every operation below is
well defined on representatives (denominators stay positive), and
comparisons and rounding are representative-independent. -/
structure Frac where
  num : Int
  den : Nat
  deriving DecidableEq, Repr

/-- Embed an integer. -/
def Frac.ofInt (n : Int) : Frac := ⟨n, 1⟩

/-- The exact value of dividing integer `n` by positive natural `d`
(the JS expression `n / d` for our integer wire fields). -/
def Frac.scaled (n : Int) (d : Nat) : Frac := ⟨n, d⟩

/-- Fraction addition. -/
def Frac.add (x y : Frac) : Frac :=
  ⟨x.num * (y.den : Int) + y.num * (x.den : Int), x.den * y.den⟩

/-- Fraction multiplication. -/
def Frac.mul (x y : Frac) : Frac := ⟨x.num * y.num, x.den * y.den⟩

/-- Fraction negation. -/
def Frac.neg (x : Frac) : Frac := ⟨-x.num, x.den⟩

/-- Strictly positive test (denominators are positive). -/
def Frac.pos (x : Frac) : Bool := 0 < x.num

/-- Nonnegativity test. -/
def Frac.nonneg (x : Frac) : Bool := 0 ≤ x.num

/-- Zero test. -/
def Frac.isZero (x : Frac) : Bool := x.num = 0

/-- Fuel-driven Euclidean algorithm (structural, so it reduces by `decide`). -/
def gcdFuel : Nat → Nat → Nat → Nat
  | 0, _, n => n
  | f + 1, m, n => if m = 0 then n else gcdFuel f (n % m) m

/-- Greatest common divisor via `gcdFuel` (fuel `m + 1` always suffices). -/
def natGcd (m n : Nat) : Nat := gcdFuel (m + 1) m n

/-- A JavaScript number: NaN, a signed infinity, or an exact fraction. -/
inductive JsNum where
  | nan : JsNum
  | inf : Bool → JsNum
  | fin : Frac → JsNum
  deriving DecidableEq, Repr

/-- JS `isNaN`. -/
def JsNum.isNaN : JsNum → Bool
  | .nan => true
  | _ => false

/-- JS `x > 0`. -/
def JsNum.gt0 : JsNum → Bool
  | .nan => false
  | .inf neg => !neg
  | .fin q => q.pos

/-- JS `x >= 0`. -/
def JsNum.ge0 : JsNum → Bool
  | .nan => false
  | .inf neg => !neg
  | .fin q => q.nonneg

/-- JS truthiness of a number (`NaN` and `0` are falsy). -/
def JsNum.truthy : JsNum → Bool
  | .nan => false
  | .inf _ => true
  | .fin q => !q.isZero

/-- JS multiplication. -/
def JsNum.mul : JsNum → JsNum → JsNum
  | .nan, _ => .nan
  | _, .nan => .nan
  | .inf n, .inf m => .inf (n != m)
  | .inf n, .fin q =>
    if q.isZero then .nan else .inf (n != decide (q.num < 0))
  | .fin q, .inf m =>
    if q.isZero then .nan else .inf (m != decide (q.num < 0))
  | .fin p, .fin q => .fin (p.mul q)

/-- JS addition. -/
def JsNum.add : JsNum → JsNum → JsNum
  | .nan, _ => .nan
  | _, .nan => .nan
  | .inf n, .inf m => if n = m then .inf n else .nan
  | .inf n, .fin _ => .inf n
  | .fin _, .inf m => .inf m
  | .fin p, .fin q => .fin (p.add q)

/-- Value of a digit list, most significant first. -/
def digitsVal (l : List Char) : Nat :=
  l.foldl (fun a c => a * 10 + (c.toNat - 48)) 0

/-- Pad a numeral string with leading zeros to width `d`. -/
def padZeros (s : String) (d : Nat) : String :=
  String.mk (List.replicate (d - s.toList.length) '0' ++ s.toList)

/-- Format a nonnegative integer `n` (standing for `n / 10 ^ d`) with `d`
digits after the decimal point. -/
def natFixed (n d : Nat) : String :=
  if d = 0 then toString n
  else toString (n / 10 ^ d) ++ "." ++ padZeros (toString (n % 10 ^ d)) d

/-- Round a nonnegative fraction to the nearest integer after scaling by
`10 ^ d`, ties upward — the choice ECMAScript `toFixed` specifies. -/
def Frac.roundHalfUp (q : Frac) (d : Nat) : Nat :=
  ((2 * q.num * (10 : Int) ^ d + (q.den : Int)) / (2 * (q.den : Int))).toNat

/-- Fixed-point rendering of an exact fraction, JS `toFixed` semantics
(sign peeled first, so `-0.004` renders as `"-0.00"` at 2 digits). -/
def qToFixed (q : Frac) (d : Nat) : String :=
  if q.num < 0 then "-" ++ natFixed (Frac.roundHalfUp q.neg d) d
  else natFixed (Frac.roundHalfUp q d) d

/-- JS `Number.prototype.toFixed`. -/
def JsNum.toFixed : JsNum → Nat → String
  | .nan, _ => "NaN"
  | .inf true, _ => "-Infinity"
  | .inf false, _ => "Infinity"
  | .fin q, d => qToFixed q d

/-- Rendering of a number by JS string interpolation.  Only the NaN,
infinity and integer cases are exercised by the program's reachable states;
a non-integral fraction is rendered in lowest terms as `num/den`, standing
in for the double shortest-round-trip decimal. -/
def JsNum.display : JsNum → String
  | .nan => "NaN"
  | .inf true => "-Infinity"
  | .inf false => "Infinity"
  | .fin q =>
    let g := natGcd q.num.natAbs q.den
    let n := q.num / (g : Int)
    let d := q.den / g
    if d = 1 then toString n else toString n ++ "/" ++ toString d

/-- Exponent part value for the `parseFloat` model. -/
def expVal (t : List Char) : Int :=
  let p := match t with
    | '+' :: r => (false, r)
    | '-' :: r => (true, r)
    | r => (false, r)
  let ds := p.2.takeWhile Char.isDigit
  if ds = [] then 0
  else if p.1 then -(digitsVal ds : Int) else (digitsVal ds : Int)

/-- Model of JS `parseFloat`: longest valid decimal-literal prefix after
leading whitespace; `Infinity` literals are honoured; no valid prefix gives
NaN.  Values are exact fractions. -/
def parseFloat (s : String) : JsNum :=
  let cs := s.toList.dropWhile isWsChar
  let p := match cs with
    | '+' :: r => (false, r)
    | '-' :: r => (true, r)
    | r => (false, r)
  let neg := p.1
  let cs1 := p.2
  if charsPrefix ['I','n','f','i','n','i','t','y'] cs1 then JsNum.inf neg
  else
    let d1 := cs1.takeWhile Char.isDigit
    let r1 := cs1.dropWhile Char.isDigit
    let q := match r1 with
      | '.' :: t => (t.takeWhile Char.isDigit, t.dropWhile Char.isDigit)
      | _ => ([], r1)
    let d2 := q.1
    let r2 := q.2
    if d1 = [] ∧ d2 = [] then JsNum.nan
    else
      let mant : Frac := ⟨(digitsVal d1 * 10 ^ d2.length + digitsVal d2 : Nat), 10 ^ d2.length⟩
      let e : Int := match r2 with
        | 'e' :: t => expVal t
        | 'E' :: t => expVal t
        | _ => 0
      let v : Frac :=
        if 0 ≤ e then ⟨mant.num * (10 : Int) ^ e.toNat, mant.den⟩
        else ⟨mant.num, mant.den * 10 ^ (-e).toNat⟩
      JsNum.fin (if neg then v.neg else v)

/-- JS `Map.get` over an insertion-ordered association list. -/
def mapGet {α : Type} (m : List (String × α)) (k : String) : Option α :=
  (m.find? (fun p => p.1 = k)).map (fun p => p.2)

/-- JS `Map.set`: update in place when the key exists, else append. -/
def mapSet {α : Type} (m : List (String × α)) (k : String) (v : α) :
    List (String × α) :=
  if m.any (fun p => p.1 = k) then
    m.map (fun p => if p.1 = k then (k, v) else p)
  else m ++ [(k, v)]

example : jsTrim "  a b " = "a b" := by decide
example : jsSplit "1.000001:5" ':' = ["1.000001", "5"] := by decide
example : jsSplit ":5" ':' = ["", "5"] := by decide
example : jsSplit "" ':' = [""] := by decide
example : parseFloat "12.345" = JsNum.fin ⟨12345, 1000⟩ := by decide
example : parseFloat "Infinity" = JsNum.inf false := by decide
example : parseFloat "-5" = JsNum.fin ⟨-5, 1⟩ := by decide
example : parseFloat "abc" = JsNum.nan := by decide
example : parseFloat "1e2" = JsNum.fin ⟨100, 1⟩ := by decide
example : qToFixed (Frac.scaled 12345 1000) 3 = "12.345" := by decide
example : qToFixed (Frac.scaled (-500) 1000) 3 = "-0.500" := by decide
example : qToFixed (Frac.scaled 250 100) 2 = "2.50" := by decide
example : qToFixed (Frac.scaled 5 1000) 3 = "0.005" := by decide

/-- One normalized quote (`StockData` in the source): all numeric fields are
pre-formatted decimal strings, `updateTime` is the batch timestamp. -/
structure StockData where
  code : String
  name : String
  current : String
  change : String
  changePercent : String
  previousClose : String
  updateTime : String
  deriving DecidableEq, Repr

/-- One display row (`StockItem` in the source).  `expandable` models the
collapsible state (`Collapsed` vs `None`); `icon` is the theme icon id with
its optional theme color. -/
structure StockItem where
  label : String
  expandable : Bool
  description : String
  icon : Option (String × Option String)
  stockCode : Option String
  isRoot : Bool
  deriving DecidableEq, Repr

/-- The provider's mutable fields (`StockDataProvider` in the source). -/
structure EngineState where
  stocksData : List (String × StockData)
  isLoading : Bool
  stockCodeList : List String
  holdingShares : List (String × JsNum)
  lastUpdateTime : String
  deriving DecidableEq, Repr

/-- The instrument code of a raw entry: the trimmed part before the first
`:` (`parts[0].trim()` after `split(":")` in the source). -/
def entryCode (code : String) : String :=
  jsTrim ((jsSplit code ':').headD "")

/-- Processing of one configuration entry inside `loadStockCodes` (source
lines 79-95): split on `:`, keep a nonempty trimmed left part as the code,
and record the right part as a holding when it parses to a number `> 0`. -/
def loadStep (acc : List String × List (String × JsNum)) (code : String) :
    List String × List (String × JsNum) :=
  if entryCode code = "" then acc
  else
    (acc.1 ++ [entryCode code],
      match jsSplit code ':' with
      | _ :: p1 :: _ =>
        let shares := parseFloat (jsTrim p1)
        if (!shares.isNaN && shares.gt0) = true then
          mapSet acc.2 (entryCode code) shares
        else acc.2
      | _ => acc.2)

/-- The instrument list and holdings map that `loadStockCodes` computes from
the raw configuration value (source lines 61-104).  The default list is used
when the configuration is absent or contains only whitespace entries; note
the parsed list replaces the default even when parsing discards every
entry. -/
def registryOf (customCodes : List String) : List String × List (String × JsNum) :=
  if customCodes.length ≠ 0 then
    if ((customCodes.map jsTrim).filter (fun c => c.length != 0)).length ≠ 0 then
      ((customCodes.map jsTrim).filter (fun c => c.length != 0)).foldl loadStep ([], [])
    else (["1.000001"], [])
  else (["1.000001"], [])

/-- `loadStockCodes`: wholesale replacement of the registry state from the
configuration (the method reads nothing else from the provider state). -/
def loadStockCodes (st : EngineState) (customCodes : List String) : EngineState :=
  { st with
    stockCodeList := (registryOf customCodes).1
    holdingShares := (registryOf customCodes).2 }

/-- One raw record of the batched quote response (`data.diff` element):
integer-scaled price fields under numeric-coded keys. -/
structure RawRecord where
  f12 : String
  f13 : Int
  f14 : Option String
  f2 : Int
  f3 : Int
  f4 : Int
  f18 : Int
  deriving DecidableEq, Repr

/-- Per-record normalization inside `fetchBatchStocks` (source lines
381-409): reconstruct the instrument code, pick the market decoding profile
(divisor 1000 / 3 decimals for market ids 116, 105, 106, 107; divisor 100 /
2 decimals otherwise), normalize prices by that profile and the percentage
by 100 at 2 decimals. -/
def processRecord (r : RawRecord) (updateTime : String) : String × StockData :=
  let stockCode := toString r.f13 ++ "." ++ r.f12
  let name := match r.f14 with
    | some s => if s = "" then stockCode else s
    | none => stockCode
  let isHKorUS := (r.f13 == 116) || (r.f13 == 105) || (r.f13 == 106) || (r.f13 == 107)
  let divisor : Nat := if isHKorUS then 1000 else 100
  let decimals : Nat := if isHKorUS then 3 else 2
  (stockCode,
    { code := stockCode
      name := name
      current := qToFixed (Frac.scaled r.f2 divisor) decimals
      change := qToFixed (Frac.scaled r.f4 divisor) decimals
      changePercent := qToFixed (Frac.scaled r.f3 100) 2
      previousClose := qToFixed (Frac.scaled r.f18 divisor) decimals
      updateTime := updateTime })

/-- Insert every non-null record of a response into the quote map (the
`for (const stockData of stocks)` loop). -/
def processRecords (m : List (String × StockData))
    (records : List (Option RawRecord)) (updateTime : String) :
    List (String × StockData) :=
  records.foldl
    (fun m or =>
      match or with
      | none => m
      | some r => mapSet m (processRecord r updateTime).1 (processRecord r updateTime).2)
    m

/-- Outcome of one batched fetch: transport error, JSON parse exception,
a response without the expected `data.diff` collection, or a record list. -/
inductive FetchOutcome where
  | netError : FetchOutcome
  | parseError : FetchOutcome
  | noDiff : FetchOutcome
  | ok : List (Option RawRecord) → FetchOutcome
  deriving DecidableEq, Repr

/-- Synchronous prefix of `fetchAllStockData` (source lines 329-347): with an
empty code list the method completes at once (loading flag cleared, change
event fired, no request).  Otherwise it stores the cycle timestamp, clears
the quote map, and dispatches the batch request; the returned `Option` is
the captured `updateTime` of the request in flight.  The first component is
the provider state visible to readers until the response arrives. -/
def fetchAllStockData (st : EngineState) (now : String) :
    EngineState × Option String :=
  if st.stockCodeList.length = 0 then ({ st with isLoading := false }, none)
  else ({ st with lastUpdateTime := now, stocksData := [] }, some now)

/-- Response handler of `fetchBatchStocks` (source lines 369-427): process
the records on success, swallow parse errors and invalid shapes, and in
every case invoke the completion callback exactly once (clear the loading
flag, fire the change event).  The returned `Nat` counts completion-callback
invocations on the modelled path. -/
def fetchBatchStocks (st : EngineState) (outcome : FetchOutcome)
    (updateTime : String) : EngineState × Nat :=
  match outcome with
  | .ok records =>
    ({ st with stocksData := processRecords st.stocksData records updateTime,
               isLoading := false }, 1)
  | .noDiff => ({ st with isLoading := false }, 1)
  | .parseError => ({ st with isLoading := false }, 1)
  | .netError => ({ st with isLoading := false }, 1)

/-- A full refresh cycle: the synchronous prefix followed, when a request
was dispatched, by the response handler with the given outcome. -/
def runCycle (st : EngineState) (now : String) (outcome : FetchOutcome) :
    EngineState × Nat :=
  match fetchAllStockData st now with
  | (st1, none) => (st1, 0)
  | (st1, some ut) => fetchBatchStocks st1 outcome ut

/-- The root row built for one configured code (source lines 147-207):
a "load failed" row when the code has no cached quote, otherwise the quote
row with arrow, percentage and market tag.  `code.split('.')[1]` is modelled
as `""` when the code has no dot; the source would fault there, but such a
code never has a cache entry since fetched keys always contain a dot. -/
def rootStockRow (cache : List (String × StockData)) (code : String) : StockItem :=
  match mapGet cache code with
  | none => ⟨code, true, "加载失败", some ("error", none), some code, true⟩
  | some sd =>
    let changeNum := parseFloat sd.change
    let isUp := changeNum.ge0
    let arrow := if isUp then "↑" else "↓"
    let marketCode := (jsSplit code '.').headD ""
    let symbolPart := ((jsSplit code '.').drop 1).headD ""
    let tagColor :=
      if marketCode = "116" then (" ［港］", "charts.purple")
      else if marketCode = "105" ∨ marketCode = "106" ∨ marketCode = "107" then
        (" ［美］", "charts.blue")
      else if marketCode = "0" ∧ jsStartsWith symbolPart "3" then
        (" ［创］", "charts.orange")
      else if marketCode = "1" ∧ jsStartsWith symbolPart "688" then
        (" ［科］", "charts.yellow")
      else ("", "charts.green")
    ⟨sd.name, true,
      sd.current ++ " " ++ arrow ++ " " ++ sd.changePercent ++ "%" ++ tagColor.1,
      some ("circle-filled", some tagColor.2), some code, true⟩

/-- One step of the total-profit/loss loop (source lines 213-220): holdings
entries whose code has a cached quote and whose share count is `> 0`
contribute `change × shares`; the flag records that some entry contributed. -/
def plStep (cache : List (String × StockData)) (acc : JsNum × Bool)
    (p : String × JsNum) : JsNum × Bool :=
  match mapGet cache p.1 with
  | some sd =>
    if p.2.gt0 = true then
      (acc.1.add ((parseFloat sd.change).mul p.2), true)
    else acc
  | none => acc

/-- The aggregate-profit/loss accumulation over the holdings map. -/
def plFold (cache : List (String × StockData))
    (holds : List (String × JsNum)) : JsNum × Bool :=
  holds.foldl (plStep cache) (JsNum.fin ⟨0, 1⟩, false)

/-- Sign-explicit 2-decimal formatting used for profit/loss values
(source lines 224-226 and 308-310). -/
def signedFmt (n : JsNum) : String :=
  if n.ge0 = true then "+" ++ n.toFixed 2 else n.toFixed 2

/-- The aggregate profit/loss row. -/
def aggRow (pl : JsNum) : StockItem :=
  ⟨"今日盈亏", false, signedFmt pl,
    some ((if pl.ge0 = true then "arrow-up" else "arrow-down"),
      some (if pl.ge0 = true then "charts.red" else "charts.green")),
    none, false⟩

/-- The update-time metadata row. -/
def updateTimeRow (t : String) : StockItem :=
  ⟨"更新时间", false, t, some ("clock", none), none, false⟩

/-- `getRootItems` (source lines 130-254): the loading placeholder while the
first load is pending; otherwise one row per configured code, then the
aggregate profit/loss row when some holding contributed, then the
update-time row when a cycle has recorded a timestamp. -/
def getRootItems (st : EngineState) : List StockItem :=
  if st.isLoading then
    [⟨"上证指数", true, "加载中...", some ("loading~spin", none), some "1.000001", true⟩]
  else
    (st.stockCodeList.map (rootStockRow st.stocksData) ++
        (if (plFold st.stocksData st.holdingShares).2 then
          [aggRow (plFold st.stocksData st.holdingShares).1]
        else [])) ++
      (if st.lastUpdateTime ≠ "" then [updateTimeRow st.lastUpdateTime] else [])

/-- `getDetailItems` (source lines 257-326): empty when the code has no
cached quote; otherwise previous close and signed change rows, plus the
share count and per-position profit/loss when a (truthy) holding exists. -/
def getDetailItems (st : EngineState) (stockCode : String) : List StockItem :=
  match mapGet st.stocksData stockCode with
  | none => []
  | some sd =>
    let changeNum := parseFloat sd.change
    let isUp := changeNum.ge0
    let arrow := if isUp then "↑" else "↓"
    let base : List StockItem :=
      [⟨"昨日收盘", false, sd.previousClose,
          some ("symbol-number", some "charts.blue"), none, false⟩,
        ⟨"涨跌点数", false, arrow ++ " " ++ sd.change,
          some ((if isUp then "arrow-up" else "arrow-down"),
            some (if isUp then "charts.red" else "charts.green")), none, false⟩]
    match mapGet st.holdingShares stockCode with
    | some shares =>
      if shares.truthy then
        base ++
          [⟨"持有股数", false, shares.display,
              some ("database", some "charts.purple"), none, false⟩,
            aggRow (changeNum.mul shares)]
      else base
    | none => base

/-- Loop body of `updateHoldingShares` (source lines 459-481): skip blank
entries, rewrite an entry whose code matches the target to `code:shares`
(or the bare code when `shares = 0`, marking it found), and pass other
entries through trimmed. -/
def updStep (stockCode : String) (shares : Nat) (acc : List String × Bool)
    (code : String) : List String × Bool :=
  if jsTrim code = "" then acc
  else if entryCode (jsTrim code) = stockCode then
    (acc.1 ++ [if shares > 0 then stockCode ++ ":" ++ toString shares
               else stockCode], true)
  else (acc.1 ++ [jsTrim code], acc.2)

/-- `updateHoldingShares` (source lines 451-497) acting on the persisted
configuration list: the rewrite loop over every raw entry, plus the append
of a fresh `code:shares` entry when no entry matched and `shares > 0`. -/
def updateHoldingShares (customCodes : List String) (stockCode : String)
    (shares : Nat) : List String :=
  let r := customCodes.foldl (updStep stockCode shares) ([], false)
  if r.2 = false ∧ shares > 0 then r.1 ++ [stockCode ++ ":" ++ toString shares]
  else r.1

/-- The provider state as constructed (before the constructor's
`loadStockCodes` / `fetchAllStockData` calls). -/
def freshState : EngineState := ⟨[], true, [], [], ""⟩

example : (loadStockCodes freshState ["1.000001:10"]).holdingShares
    = [("1.000001", JsNum.fin ⟨10, 1⟩)] := by decide
example : (loadStockCodes freshState [":5"]).stockCodeList = [] := by decide
example : (loadStockCodes freshState []).stockCodeList = ["1.000001"] := by decide
example : (loadStockCodes freshState ["1.000001:-5"]).holdingShares = [] := by decide
example : updateHoldingShares ["X:7", "Y"] "X" 0 = ["X", "Y"] := by decide
example : updateHoldingShares ["X", "Y"] "X" 12 = ["X:12", "Y"] := by decide
example : updateHoldingShares ["Y"] "X" 3 = ["Y", "X:3"] := by decide
example : (processRecord ⟨"00700", 116, some "T", 123456, 250, -500, 123956⟩ "t").2.current
    = "123.456" := by decide
example : (processRecord ⟨"000001", 1, some "S", 123456, 250, -500, 123956⟩ "t").2.current
    = "1234.56" := by decide

/-- The contribution of one holdings entry to the aggregate profit/loss,
as the specification words it: `change × shares` when the instrument has a
cached quote, nothing otherwise. -/
def plPick (cache : List (String × StockData)) (p : String × JsNum) : Option JsNum :=
  (mapGet cache p.1).map (fun sd => (parseFloat sd.change).mul p.2)

/-- Specification-side aggregate profit/loss: the sum over held instruments
with a cached quote of `change × shares`. -/
def specPL (cache : List (String × StockData))
    (holds : List (String × JsNum)) : JsNum :=
  (holds.filterMap (plPick cache)).foldl JsNum.add (JsNum.fin ⟨0, 1⟩)

/-- Specification-side reading of the registry's code extraction: the
trimmed left part of every kept entry whose left part is nonempty. -/
def parsedCodesOf (codes : List String) : List String :=
  codes.filterMap (fun c => if entryCode c = "" then none else some (entryCode c))

/-- Specification-side reading of the holdings rewrite (claim C5 as amended):
trim entries, drop blank ones, rewrite entries whose code matches the target,
and append a fresh entry when nothing matched and `shares > 0`. -/
def rewriteSpec (customCodes : List String) (stockCode : String)
    (shares : Nat) : List String :=
  let kept := (customCodes.map jsTrim).filter (fun t => t != "")
  let newEntry := if shares > 0 then stockCode ++ ":" ++ toString shares
                  else stockCode
  let rewritten := kept.map
    (fun t => if entryCode t = stockCode then newEntry else t)
  if (kept.any (fun t => decide (entryCode t = stockCode))) = false
      ∧ shares > 0 then
    rewritten ++ [stockCode ++ ":" ++ toString shares]
  else rewritten

/-- Every key of the holdings map is a watched instrument, and every stored
share value passes the source's acceptance test (`> 0`, never NaN). -/
def holdingsInvariant (st : EngineState) : Prop :=
  ∀ p ∈ st.holdingShares,
    p.1 ∈ st.stockCodeList ∧ p.2.gt0 = true ∧ p.2.isNaN = false

/-- A concrete cached quote used by closed witnesses and counterexamples. -/
def quoteA : StockData :=
  ⟨"1.000001", "上证指数", "3500.00", "25.00", "0.72", "3475.00", "09:30:00"⟩

/-- A loaded provider state holding one cached quote. -/
def stBefore : EngineState :=
  ⟨[("1.000001", quoteA)], false, ["1.000001"], [], "09:30:00"⟩

/-- A loaded provider state with one cached quote and one holding. -/
def stHolding : EngineState :=
  ⟨[("1.000001", quoteA)], false, ["1.000001"],
    [("1.000001", JsNum.fin ⟨100, 1⟩)], "09:30:00"⟩

/-- The provider state right after construction with an empty configuration. -/
def initLoaded : EngineState := loadStockCodes freshState []

/-- C1: for every record of a batch fetch, market ids 105/106/107/116 are
normalized with divisor 1000 at 3 decimal places for current, change and
previous close; every other market id with divisor 100 at 2 decimal places;
and the percentage field is always divided by 100 at 2 decimal places. -/
theorem c1_market_normalization (r : RawRecord) (ut : String) :
    ((r.f13 = 105 ∨ r.f13 = 106 ∨ r.f13 = 107 ∨ r.f13 = 116) →
      (processRecord r ut).2.current = qToFixed (Frac.scaled r.f2 1000) 3 ∧
      (processRecord r ut).2.change = qToFixed (Frac.scaled r.f4 1000) 3 ∧
      (processRecord r ut).2.previousClose = qToFixed (Frac.scaled r.f18 1000) 3) ∧
    (¬(r.f13 = 105 ∨ r.f13 = 106 ∨ r.f13 = 107 ∨ r.f13 = 116) →
      (processRecord r ut).2.current = qToFixed (Frac.scaled r.f2 100) 2 ∧
      (processRecord r ut).2.change = qToFixed (Frac.scaled r.f4 100) 2 ∧
      (processRecord r ut).2.previousClose = qToFixed (Frac.scaled r.f18 100) 2) ∧
    (processRecord r ut).2.changePercent = qToFixed (Frac.scaled r.f3 100) 2 := by
  have hb : ((r.f13 == 116) || (r.f13 == 105) || (r.f13 == 106) || (r.f13 == 107)) = true
      ↔ (r.f13 = 105 ∨ r.f13 = 106 ∨ r.f13 = 107 ∨ r.f13 = 116) := by
    simp only [Bool.or_eq_true, beq_iff_eq]
    tauto
  refine ⟨fun h => ?_, fun h => ?_, ?_⟩
  · have hbt := hb.mpr h
    simp [processRecord, hbt]
  · have hbf : ((r.f13 == 116) || (r.f13 == 105) || (r.f13 == 106) || (r.f13 == 107)) = false := by
      rcases Bool.eq_false_or_eq_true ((r.f13 == 116) || (r.f13 == 105) || (r.f13 == 106) || (r.f13 == 107)) with ht | hf
      · exact absurd (hb.mp ht) h
      · exact hf
    simp [processRecord, hbf]
  · simp [processRecord]

theorem c1_market_normalization_witness :
    ((105 : Int) = 105 ∨ (105 : Int) = 106 ∨ (105 : Int) = 107 ∨ (105 : Int) = 116) ∧
    (processRecord ⟨"AAPL", 105, some "Apple", 123456, 250, -500, 123956⟩ "t").2.current
      = qToFixed (Frac.scaled 123456 1000) 3 :=
  ⟨by decide,
    (((c1_market_normalization
      ⟨"AAPL", 105, some "Apple", 123456, 250, -500, 123956⟩ "t").1) (by decide)).1⟩

/-- C3: a refresh cycle that fails with a network error or a parse exception
still invokes its completion callback exactly once, clears the loading flag,
and leaves the cache as this cycle's fresh empty map. -/
theorem c3_failed_cycle (st : EngineState) (now : String) (outcome : FetchOutcome)
    (hcodes : st.stockCodeList ≠ [])
    (hfail : outcome = FetchOutcome.netError ∨ outcome = FetchOutcome.parseError) :
    (runCycle st now outcome).2 = 1 ∧
    (runCycle st now outcome).1.stocksData = [] ∧
    (runCycle st now outcome).1.isLoading = false := by
  have hlen : ¬(st.stockCodeList.length = 0) := by
    simpa [List.length_eq_zero] using hcodes
  rcases hfail with h | h <;> subst h <;>
    simp [runCycle, fetchAllStockData, fetchBatchStocks, hlen]

theorem c3_failed_cycle_witness :
    (stBefore.stockCodeList ≠ []) ∧
    (FetchOutcome.netError = FetchOutcome.netError ∨
      FetchOutcome.netError = FetchOutcome.parseError) ∧
    ((runCycle stBefore "09:31:00" FetchOutcome.netError).2 = 1 ∧
      (runCycle stBefore "09:31:00" FetchOutcome.netError).1.stocksData = [] ∧
      (runCycle stBefore "09:31:00" FetchOutcome.netError).1.isLoading = false) :=
  ⟨by decide, by decide,
    c3_failed_cycle stBefore "09:31:00" FetchOutcome.netError (by decide) (by decide)⟩

/-- C9: reloading the configuration twice with the same value yields the
same registry state as reloading once, and the same root node list. -/
theorem c9_reload_idempotent (st : EngineState) (cfg : List String) :
    loadStockCodes (loadStockCodes st cfg) cfg = loadStockCodes st cfg ∧
    getRootItems (loadStockCodes (loadStockCodes st cfg) cfg)
      = getRootItems (loadStockCodes st cfg) :=
  ⟨rfl, rfl⟩

/-- C2 counterexample: starting a cycle from a loaded state clears the quote
cache synchronously, so before the cycle's completion callback runs a reader
already observes the cleared map — both root and detail views change. -/
theorem c2_cleared_visible_counterexample :
    (fetchAllStockData stBefore "09:31:00").1.stocksData = [] ∧
    stBefore.stocksData ≠ [] ∧
    getRootItems (fetchAllStockData stBefore "09:31:00").1 ≠ getRootItems stBefore ∧
    getDetailItems (fetchAllStockData stBefore "09:31:00").1 "1.000001" = [] ∧
    getDetailItems stBefore "1.000001" ≠ [] := by decide

/-- C2 as amended: during an in-flight cycle readers observe exactly the
cleared map, and the completed state's cache is exactly the batch result
rebuilt from empty — the fill and the completion callback happen in one
atomic step, so no partially filled map is ever visible. -/
theorem c2_cycle_visibility (st : EngineState) (now : String)
    (outcome : FetchOutcome) (hcodes : st.stockCodeList ≠ []) :
    (fetchAllStockData st now).1.stocksData = [] ∧
    (runCycle st now outcome).1.stocksData =
      (match outcome with
       | FetchOutcome.ok records => processRecords [] records now
       | _ => []) := by
  have hlen : ¬(st.stockCodeList.length = 0) := by
    simpa [List.length_eq_zero] using hcodes
  refine ⟨by simp [fetchAllStockData, hlen], ?_⟩
  cases outcome <;> simp [runCycle, fetchAllStockData, fetchBatchStocks, hlen]

theorem c2_cycle_visibility_witness :
    (stBefore.stockCodeList ≠ []) ∧
    ((fetchAllStockData stBefore "09:31:00").1.stocksData = [] ∧
      (runCycle stBefore "09:31:00" FetchOutcome.netError).1.stocksData =
        (match FetchOutcome.netError with
         | FetchOutcome.ok records => processRecords [] records "09:31:00"
         | _ => [])) :=
  ⟨by decide, c2_cycle_visibility stBefore "09:31:00" FetchOutcome.netError (by decide)⟩

/-- C5 counterexample: non-matching entries do not pass through unchanged —
surrounding whitespace is trimmed and blank entries are dropped. -/
theorem c5_passthrough_counterexample :
    updateHoldingShares ["  2.600000:5", "   ", "1.000001"] "1.000001" 3
      = ["2.600000:5", "1.000001:3"] ∧
    "  2.600000:5" ∉ updateHoldingShares ["  2.600000:5", "   ", "1.000001"] "1.000001" 3 ∧
    "   " ∉ updateHoldingShares ["  2.600000:5", "   ", "1.000001"] "1.000001" 3 := by decide

/-- C6 counterexample: the right part `"Infinity"` parses to a non-finite
value, yet the source's `!isNaN && > 0` test accepts it into the holdings
map, contradicting the claim that only finite positive values are kept. -/
theorem c6_infinity_counterexample :
    parseFloat "Infinity" = JsNum.inf false ∧
    (loadStockCodes freshState ["1.000001:Infinity"]).holdingShares
      = [("1.000001", JsNum.inf false)] := by decide

/-- C7 counterexample: a configuration whose only entry has an empty left
part parses to an empty instrument list, and no default is substituted. -/
theorem c7_no_default_counterexample :
    (loadStockCodes freshState [":5"]).stockCodeList = [] ∧
    (loadStockCodes freshState [":5"]).stockCodeList ≠ ["1.000001"] := by decide

/-- C8 counterexample: a failed first cycle still stamps the cycle's start
time, and the update-time row then displays it although no batch ever
completed successfully. -/
theorem c8_failed_cycle_counterexample :
    initLoaded.lastUpdateTime = "" ∧
    (runCycle initLoaded "09:00:00" FetchOutcome.netError).1.lastUpdateTime
      = "09:00:00" ∧
    updateTimeRow "09:00:00"
      ∈ getRootItems (runCycle initLoaded "09:00:00" FetchOutcome.netError).1 := by decide

theorem loadStep_fold_codes (codes : List String) :
    ∀ acc : List String × List (String × JsNum),
    (codes.foldl loadStep acc).1 = acc.1 ++ parsedCodesOf codes := by
  induction codes with
  | nil => intro acc; simp [parsedCodesOf]
  | cons c cs ih =>
    intro acc
    rw [List.foldl_cons, ih (loadStep acc c)]
    by_cases hsc : entryCode c = ""
    · have h1 : loadStep acc c = acc := by simp [loadStep, hsc]
      have h2 : parsedCodesOf (c :: cs) = parsedCodesOf cs := by
        simp [parsedCodesOf, hsc]
      rw [h1, h2]
    · have h1 : (loadStep acc c).1 = acc.1 ++ [entryCode c] := by
        simp [loadStep, hsc]
      have h2 : parsedCodesOf (c :: cs) = entryCode c :: parsedCodesOf cs := by
        simp [parsedCodesOf, hsc]
      rw [h1, h2, List.append_assoc, List.singleton_append]

/-- C7 as amended: the default broad-market-index list is substituted
exactly when the configuration, after trimming, has no nonempty entry;
when nonempty entries exist the instrument list is the (possibly empty)
list of their nonempty left parts — an all-discarded configuration such as
`[":5"]` yields the empty list, not the default. -/
theorem c7_default_only_for_blank_config (st : EngineState) (cfg : List String) :
    (loadStockCodes st cfg).stockCodeList =
      (if (cfg.map jsTrim).filter (fun e => e.length != 0) = [] then ["1.000001"]
       else parsedCodesOf ((cfg.map jsTrim).filter (fun e => e.length != 0))) := by
  have hL : (loadStockCodes st cfg).stockCodeList = (registryOf cfg).1 := rfl
  rw [hL]
  rcases cfg with _ | ⟨c, cs⟩
  · simp [registryOf, parsedCodesOf]
  · unfold registryOf
    rw [if_pos (by simp : ((c :: cs).length ≠ 0))]
    by_cases hz : ((c :: cs).map jsTrim).filter (fun e => e.length != 0) = []
    · rw [if_neg (by rw [hz]; simp), if_pos hz]
    · have hlen : (((c :: cs).map jsTrim).filter (fun e => e.length != 0)).length ≠ 0 := by
        simpa [List.length_eq_zero] using hz
      rw [if_pos hlen, if_neg hz, loadStep_fold_codes]
      simp

theorem updStep_fold (target : String) (shares : Nat) (codes : List String) :
    ∀ (l : List String) (b : Bool),
    codes.foldl (updStep target shares) (l, b)
      = (l ++ ((codes.map jsTrim).filter (fun t => t != "")).map
            (fun t => if entryCode t = target then
                (if shares > 0 then target ++ ":" ++ toString shares else target)
              else t),
         b || ((codes.map jsTrim).filter (fun t => t != "")).any
            (fun t => decide (entryCode t = target))) := by
  induction codes with
  | nil => intro l b; simp
  | cons c cs ih =>
    intro l b
    rw [List.foldl_cons, List.map_cons]
    by_cases ht : jsTrim c = ""
    · have hstep : updStep target shares (l, b) c = (l, b) := by simp [updStep, ht]
      have hf : List.filter (fun t => t != "") (jsTrim c :: List.map jsTrim cs)
          = List.filter (fun t => t != "") (List.map jsTrim cs) := by
        rw [List.filter_cons]; simp [ht]
      rw [hstep, hf, ih]
    · have hf : List.filter (fun t => t != "") (jsTrim c :: List.map jsTrim cs)
          = jsTrim c :: List.filter (fun t => t != "") (List.map jsTrim cs) := by
        rw [List.filter_cons]; simp [ht]
      rw [hf]
      by_cases hm : entryCode (jsTrim c) = target
      · have hstep : updStep target shares (l, b) c
            = (l ++ [if shares > 0 then target ++ ":" ++ toString shares else target],
               true) := by
          simp [updStep, ht, hm]
        rw [hstep, ih]
        simp [hm]
      · have hstep : updStep target shares (l, b) c = (l ++ [jsTrim c], b) := by
          simp [updStep, ht, hm]
        rw [hstep, ih]
        simp [hm]

/-- C5 as amended: entries whose code matches the target become
`code:shares` (bare `code` when `shares = 0`); other entries pass through
with surrounding whitespace trimmed, their annotations preserved; blank
entries are dropped; and a new `code:shares` entry is appended when no
entry matched and `shares > 0`. -/
theorem c5_trimmed_rewrite (codes : List String) (target : String) (shares : Nat) :
    updateHoldingShares codes target shares = rewriteSpec codes target shares := by
  unfold updateHoldingShares rewriteSpec
  rw [updStep_fold]
  simp

theorem mem_mapSet {α : Type} {m : List (String × α)} {k : String} {v : α}
    {p : String × α} (h : p ∈ mapSet m k v) : p = (k, v) ∨ p ∈ m := by
  unfold mapSet at h
  split at h
  · rcases List.mem_map.mp h with ⟨q, hq, he⟩
    by_cases hk : q.1 = k
    · left
      rw [if_pos hk] at he
      exact he.symm
    · right
      rw [if_neg hk] at he
      rwa [← he]
  · rcases List.mem_append.mp h with h | h
    · right; exact h
    · left; simpa using h

theorem loadStep_fold_inv (codes : List String) :
    ∀ acc : List String × List (String × JsNum),
    (∀ p ∈ acc.2, p.1 ∈ acc.1 ∧ p.2.gt0 = true ∧ p.2.isNaN = false) →
    ∀ p ∈ (codes.foldl loadStep acc).2,
      p.1 ∈ (codes.foldl loadStep acc).1 ∧ p.2.gt0 = true ∧ p.2.isNaN = false := by
  induction codes with
  | nil => intro acc hacc; simpa using hacc
  | cons c cs ih =>
    intro acc hacc
    rw [List.foldl_cons]
    apply ih
    by_cases hsc : entryCode c = ""
    · rw [show loadStep acc c = acc by simp [loadStep, hsc]]
      exact hacc
    · have h1 : (loadStep acc c).1 = acc.1 ++ [entryCode c] := by
        simp [loadStep, hsc]
      rcases hs : jsSplit c ':' with _ | ⟨a, _ | ⟨b, t⟩⟩
      · intro p hp
        have h2 : (loadStep acc c).2 = acc.2 := by simp [loadStep, hsc, hs]
        rw [h2] at hp
        rcases hacc p hp with ⟨hm, hg, hn⟩
        exact ⟨by rw [h1]; exact List.mem_append_left _ hm, hg, hn⟩
      · intro p hp
        have h2 : (loadStep acc c).2 = acc.2 := by simp [loadStep, hsc, hs]
        rw [h2] at hp
        rcases hacc p hp with ⟨hm, hg, hn⟩
        exact ⟨by rw [h1]; exact List.mem_append_left _ hm, hg, hn⟩
      · intro p hp
        have h2 : (loadStep acc c).2
            = (if (!(parseFloat (jsTrim b)).isNaN && (parseFloat (jsTrim b)).gt0) = true
               then mapSet acc.2 (entryCode c) (parseFloat (jsTrim b))
               else acc.2) := by
          simp [loadStep, hsc, hs]
        rw [h2] at hp
        split at hp
        next hchk =>
          rcases mem_mapSet hp with he | hmem
          · subst he
            refine ⟨?_, ?_, ?_⟩
            · rw [h1]
              exact List.mem_append_right _ (by simp)
            · have hc := hchk
              rw [Bool.and_eq_true] at hc
              exact hc.2
            · have hc := hchk
              rw [Bool.and_eq_true] at hc
              simpa using hc.1
          · rcases hacc p hmem with ⟨hm, hg, hn⟩
            exact ⟨by rw [h1]; exact List.mem_append_left _ hm, hg, hn⟩
        next hchk =>
          rcases hacc p hp with ⟨hm, hg, hn⟩
          exact ⟨by rw [h1]; exact List.mem_append_left _ hm, hg, hn⟩

theorem registryOf_inv (cfg : List String) :
    ∀ p ∈ (registryOf cfg).2,
      p.1 ∈ (registryOf cfg).1 ∧ p.2.gt0 = true ∧ p.2.isNaN = false := by
  unfold registryOf
  split
  · split
    · exact loadStep_fold_inv _ ([], []) (by simp)
    · intro p hp; simp at hp
  · intro p hp; simp at hp

/-- C10: after every configuration reload — including the reload triggered
by a holdings update — every key of the holdings map is also in the
instrument-code list, and every stored holdings value passes the source's
positivity test (`> 0`, never NaN). -/
theorem c10_holdings_invariant (st : EngineState) (cfg : List String) :
    holdingsInvariant (loadStockCodes st cfg) ∧
    ∀ target shares,
      holdingsInvariant (loadStockCodes st (updateHoldingShares cfg target shares)) := by
  have H : ∀ cfg' : List String, holdingsInvariant (loadStockCodes st cfg') := by
    intro cfg'
    unfold holdingsInvariant
    intro p hp
    exact registryOf_inv cfg' p hp
  exact ⟨H cfg, fun target shares => H _⟩

theorem c10_holdings_invariant_witness :
    "1.000001" ∈ (loadStockCodes freshState ["1.000001:10"]).stockCodeList ∧
    (JsNum.fin ⟨10, 1⟩).gt0 = true :=
  ⟨(((c10_holdings_invariant freshState ["1.000001:10"]).1
      ("1.000001", JsNum.fin ⟨10, 1⟩) (by decide)).1),
    (((c10_holdings_invariant freshState ["1.000001:10"]).1
      ("1.000001", JsNum.fin ⟨10, 1⟩) (by decide)).2.1)⟩

theorem string_eq_empty_of_length_eq_zero {s : String} (h : s.length = 0) :
    s = "" := by
  cases s with
  | mk data =>
    cases data with
    | nil => rfl
    | cons c cs => simp [String.length] at h

/-- C6 as amended: for an entry splitting as `code:right`, the right part is
accepted into the holdings map exactly when it passes the source's test —
it parses (not NaN) and compares `> 0`; this admits `+Infinity` alongside
finite positive values, while non-numeric, zero and negative right parts are
silently ignored and the code is kept without a holding in every case. -/
theorem c6_entry_acceptance (st : EngineState) (entry p0 p1 : String)
    (rest : List String)
    (hsplit : jsSplit (jsTrim entry) ':' = p0 :: p1 :: rest)
    (hcode : jsTrim p0 ≠ "") :
    (loadStockCodes st [entry]).stockCodeList = [jsTrim p0] ∧
    (loadStockCodes st [entry]).holdingShares =
      (if (!(parseFloat (jsTrim p1)).isNaN && (parseFloat (jsTrim p1)).gt0) = true
       then [(jsTrim p0, parseFloat (jsTrim p1))] else []) := by
  have hec : entryCode (jsTrim entry) = jsTrim p0 := by
    unfold entryCode
    rw [hsplit]
    rfl
  have hne : jsTrim entry ≠ "" := by
    intro h
    rw [h] at hsplit
    rw [show jsSplit "" ':' = [""] from rfl] at hsplit
    have := congrArg List.length hsplit
    simp at this
  have hlenP : (jsTrim entry).length ≠ 0 := by
    intro hl
    exact hne (string_eq_empty_of_length_eq_zero hl)
  have hreg : registryOf [entry]
      = ([jsTrim p0],
         if (!(parseFloat (jsTrim p1)).isNaN && (parseFloat (jsTrim p1)).gt0) = true
         then [(jsTrim p0, parseFloat (jsTrim p1))] else []) := by
    unfold registryOf
    rw [if_pos (by simp : (([entry] : List String)).length ≠ 0)]
    have hfil : ([entry].map jsTrim).filter (fun c => c.length != 0)
        = [jsTrim entry] := by
      simp [hlenP]
    rw [hfil]
    rw [if_pos (by simp : (([jsTrim entry] : List String)).length ≠ 0)]
    rw [show ([jsTrim entry].foldl loadStep ([], []))
        = loadStep ([], []) (jsTrim entry) from rfl]
    have hstep : loadStep ([], []) (jsTrim entry)
        = ([jsTrim p0],
           if (!(parseFloat (jsTrim p1)).isNaN && (parseFloat (jsTrim p1)).gt0) = true
           then [(jsTrim p0, parseFloat (jsTrim p1))] else []) := by
      simp only [loadStep, hec, hsplit]
      rw [if_neg hcode]
      split
      · simp [mapSet]
      · simp
    exact hstep
  exact ⟨by rw [show (loadStockCodes st [entry]).stockCodeList
            = (registryOf [entry]).1 from rfl, hreg],
         by rw [show (loadStockCodes st [entry]).holdingShares
            = (registryOf [entry]).2 from rfl, hreg]⟩

theorem c6_entry_acceptance_witness :
    (jsSplit (jsTrim "1.000001:10") ':' = "1.000001" :: "10" :: []) ∧
    (jsTrim "1.000001" ≠ "") ∧
    ((loadStockCodes freshState ["1.000001:10"]).stockCodeList
        = [jsTrim "1.000001"] ∧
      (loadStockCodes freshState ["1.000001:10"]).holdingShares =
        (if (!(parseFloat (jsTrim "10")).isNaN && (parseFloat (jsTrim "10")).gt0) = true
         then [(jsTrim "1.000001", parseFloat (jsTrim "10"))] else [])) :=
  ⟨by decide, by decide,
    c6_entry_acceptance freshState "1.000001:10" "1.000001" "10" []
      (by decide) (by decide)⟩

theorem plFold_general (cache : List (String × StockData))
    (holds : List (String × JsNum)) :
    ∀ (acc : JsNum) (b : Bool),
    (∀ p ∈ holds, p.2.gt0 = true) →
    holds.foldl (plStep cache) (acc, b)
      = ((holds.filterMap (plPick cache)).foldl JsNum.add acc,
         b || holds.any (fun p => (mapGet cache p.1).isSome)) := by
  induction holds with
  | nil => intro acc b _; simp
  | cons p t ih =>
    intro acc b hpos
    have hp : p.2.gt0 = true := hpos p (List.mem_cons_self p t)
    have hpos' : ∀ q ∈ t, q.2.gt0 = true :=
      fun q hq => hpos q (List.mem_cons_of_mem _ hq)
    rw [List.foldl_cons, List.filterMap_cons, List.any_cons]
    rcases hmg : mapGet cache p.1 with _ | sd
    · have hstep : plStep cache (acc, b) p = (acc, b) := by simp [plStep, hmg]
      rw [hstep, ih acc b hpos']
      simp [plPick, hmg]
    · have hstep : plStep cache (acc, b) p
          = (acc.add ((parseFloat sd.change).mul p.2), true) := by
        simp [plStep, hmg, hp]
      rw [hstep, ih _ _ hpos']
      simp [plPick, hmg]

theorem rootStockRow_expandable (cache : List (String × StockData))
    (code : String) : (rootStockRow cache code).expandable = true := by
  cases hm : mapGet cache code <;> simp [rootStockRow, hm]

/-- C4: with loading finished and (as every reachable state guarantees)
positive holdings values, the root list carries the aggregate
profit/loss row exactly when some held instrument has a cached quote, and
that row's value is the sign-formatted sum of `change × shares` over held
instruments with a cached quote, holdings without a quote contributing
nothing. -/
theorem c4_aggregate_row (st : EngineState)
    (hload : st.isLoading = false)
    (hpos : ∀ p ∈ st.holdingShares, p.2.gt0 = true) :
    ((∃ it ∈ getRootItems st, it.label = "今日盈亏" ∧ it.expandable = false) ↔
      ∃ p ∈ st.holdingShares, (mapGet st.stocksData p.1).isSome = true) ∧
    (∀ it ∈ getRootItems st, it.label = "今日盈亏" → it.expandable = false →
      it.description = signedFmt (specPL st.stocksData st.holdingShares)) := by
  have hfold : plFold st.stocksData st.holdingShares
      = (specPL st.stocksData st.holdingShares,
         st.holdingShares.any (fun p => (mapGet st.stocksData p.1).isSome)) := by
    unfold plFold specPL
    rw [plFold_general st.stocksData st.holdingShares (JsNum.fin ⟨0, 1⟩) false hpos]
    simp
  have hroot : getRootItems st
      = (st.stockCodeList.map (rootStockRow st.stocksData)
          ++ (if st.holdingShares.any (fun p => (mapGet st.stocksData p.1).isSome)
              then [aggRow (specPL st.stocksData st.holdingShares)] else []))
        ++ (if st.lastUpdateTime ≠ "" then [updateTimeRow st.lastUpdateTime]
            else []) := by
    unfold getRootItems
    rw [hload, hfold]
    simp
  constructor
  · constructor
    · rintro ⟨it, hit, hlab, hexp⟩
      rw [hroot] at hit
      rcases List.mem_append.mp hit with h | h
      · rcases List.mem_append.mp h with h | h
        · rcases List.mem_map.mp h with ⟨code, _, rfl⟩
          rw [rootStockRow_expandable] at hexp
          exact Bool.noConfusion hexp
        · by_cases ha : st.holdingShares.any
              (fun p => (mapGet st.stocksData p.1).isSome) = true
          · rcases List.any_eq_true.mp ha with ⟨p, hpm, hps⟩
            exact ⟨p, hpm, hps⟩
          · rw [if_neg ha] at h
            exact absurd h (List.not_mem_nil it)
      · by_cases htm : st.lastUpdateTime ≠ ""
        · rw [if_pos htm, List.mem_singleton] at h
          subst h
          simp [updateTimeRow] at hlab
        · rw [if_neg htm] at h
          exact absurd h (List.not_mem_nil it)
    · rintro ⟨p, hpm, hps⟩
      have ha : st.holdingShares.any
          (fun p => (mapGet st.stocksData p.1).isSome) = true :=
        List.any_eq_true.mpr ⟨p, hpm, hps⟩
      refine ⟨aggRow (specPL st.stocksData st.holdingShares), ?_, rfl, rfl⟩
      rw [hroot]
      refine List.mem_append_left _ (List.mem_append_right _ ?_)
      rw [if_pos ha]
      exact List.mem_singleton_self _
  · intro it hit hlab hexp
    rw [hroot] at hit
    rcases List.mem_append.mp hit with h | h
    · rcases List.mem_append.mp h with h | h
      · rcases List.mem_map.mp h with ⟨code, _, rfl⟩
        rw [rootStockRow_expandable] at hexp
        exact Bool.noConfusion hexp
      · by_cases ha : st.holdingShares.any
            (fun p => (mapGet st.stocksData p.1).isSome) = true
        · rw [if_pos ha, List.mem_singleton] at h
          subst h
          rfl
        · rw [if_neg ha] at h
          exact absurd h (List.not_mem_nil it)
    · by_cases htm : st.lastUpdateTime ≠ ""
      · rw [if_pos htm, List.mem_singleton] at h
        subst h
        simp [updateTimeRow] at hlab
      · rw [if_neg htm] at h
        exact absurd h (List.not_mem_nil it)

theorem c4_aggregate_row_witness :
    ∃ it ∈ getRootItems stHolding, it.label = "今日盈亏" ∧ it.expandable = false :=
  (c4_aggregate_row stHolding rfl (by decide)).1.mpr
    ⟨("1.000001", JsNum.fin ⟨100, 1⟩), by decide, by decide⟩

theorem updateTimeRow_mem_getRootItems (st : EngineState)
    (h1 : st.isLoading = false) (h2 : st.lastUpdateTime ≠ "") :
    updateTimeRow st.lastUpdateTime ∈ getRootItems st := by
  unfold getRootItems
  rw [h1, if_neg (by simp : ¬(false = true))]
  refine List.mem_append_right _ ?_
  rw [if_pos h2]
  exact List.mem_singleton_self _

/-- C8 as amended: the update-time row carries the start time of the most
recently started batch cycle whether it succeeded or failed — a failed
cycle does change the displayed time — and the row is present once such a
cycle has recorded a (nonempty) timestamp. -/
theorem c8_update_time (st : EngineState) (now : String) (outcome : FetchOutcome)
    (hcodes : st.stockCodeList ≠ []) :
    (runCycle st now outcome).1.lastUpdateTime = now ∧
    (now ≠ "" → updateTimeRow now ∈ getRootItems (runCycle st now outcome).1) := by
  have hlen : ¬(st.stockCodeList.length = 0) := by
    simpa [List.length_eq_zero] using hcodes
  have hstate : (runCycle st now outcome).1.lastUpdateTime = now ∧
      (runCycle st now outcome).1.isLoading = false := by
    cases outcome <;> simp [runCycle, fetchAllStockData, fetchBatchStocks, hlen]
  refine ⟨hstate.1, fun hne => ?_⟩
  have hm := updateTimeRow_mem_getRootItems (runCycle st now outcome).1 hstate.2
    (by rw [hstate.1]; exact hne)
  rwa [hstate.1] at hm

theorem c8_update_time_witness :
    (stBefore.stockCodeList ≠ []) ∧
    updateTimeRow "09:31:00"
      ∈ getRootItems (runCycle stBefore "09:31:00" FetchOutcome.netError).1 :=
  ⟨by decide,
    (c8_update_time stBefore "09:31:00" FetchOutcome.netError (by decide)).2
      (by decide)⟩
